import Mathlib

/-
Verification of the AzFramework math utilities (MathUtils.h): rotation
representation conversions between Euler angle triples, quaternions and
rigid transforms, plus axis-angle extraction and a look-at builder.
The numeric semantics is modelled over the real numbers.
-/

namespace AzFramework

/-- Three-component vector of real numbers, mirroring AZ::Vector3. -/
@[ext]
structure Vector3 where
  x : ℝ
  y : ℝ
  z : ℝ

/-- Four-component quaternion, mirroring AZ::Quaternion with components x, y, z, w. -/
@[ext]
structure Quaternion where
  x : ℝ
  y : ℝ
  z : ℝ
  w : ℝ

/-- Three-by-three matrix of real numbers holding the rotational part of a transform;
entry mRC is row R, column C. -/
@[ext]
structure Matrix3x3 where
  m00 : ℝ
  m01 : ℝ
  m02 : ℝ
  m10 : ℝ
  m11 : ℝ
  m12 : ℝ
  m20 : ℝ
  m21 : ℝ
  m22 : ℝ

/-- Rigid transform, mirroring AZ::Transform: a rotational part and a translation. -/
@[ext]
structure Transform where
  basis : Matrix3x3
  translation : Vector3

/-- Identity rotation matrix. -/
def identityBasis : Matrix3x3 := ⟨1, 0, 0, 0, 1, 0, 0, 0, 1⟩

/-- Componentwise vector subtraction. -/
def vsub (a b : Vector3) : Vector3 := ⟨a.x - b.x, a.y - b.y, a.z - b.z⟩

/-- Dot product of two vectors. -/
def vdot (a b : Vector3) : ℝ := a.x * b.x + a.y * b.y + a.z * b.z

/-- Cross product of two vectors. -/
def vcross (a b : Vector3) : Vector3 :=
  ⟨a.y * b.z - a.z * b.y, a.z * b.x - a.x * b.z, a.x * b.y - a.y * b.x⟩

/-- Euclidean norm of a vector. -/
noncomputable def vnorm (v : Vector3) : ℝ := Real.sqrt (v.x ^ 2 + v.y ^ 2 + v.z ^ 2)

/-- Vector scaled to unit length by dividing by its norm. -/
noncomputable def vnormalize (v : Vector3) : Vector3 :=
  ⟨v.x / vnorm v, v.y / vnorm v, v.z / vnorm v⟩

/-- Hamilton product of two quaternions. -/
def quatMul (p q : Quaternion) : Quaternion :=
  ⟨p.w * q.x + p.x * q.w + p.y * q.z - p.z * q.y,
   p.w * q.y - p.x * q.z + p.y * q.w + p.z * q.x,
   p.w * q.z + p.x * q.y - p.y * q.x + p.z * q.w,
   p.w * q.w - p.x * q.x - p.y * q.y - p.z * q.z⟩

/-- Squared norm of a quaternion. -/
def quatNormSq (q : Quaternion) : ℝ := q.x ^ 2 + q.y ^ 2 + q.z ^ 2 + q.w ^ 2

/-- Rotation matrix implied by a unit quaternion, in the standard form used by the
extraction technique the spec cites. -/
def quatToMatrix (q : Quaternion) : Matrix3x3 :=
  ⟨1 - 2 * (q.y ^ 2 + q.z ^ 2), 2 * (q.x * q.y - q.z * q.w), 2 * (q.x * q.z + q.y * q.w),
   2 * (q.x * q.y + q.z * q.w), 1 - 2 * (q.x ^ 2 + q.z ^ 2), 2 * (q.y * q.z - q.x * q.w),
   2 * (q.x * q.z - q.y * q.w), 2 * (q.y * q.z + q.x * q.w), 1 - 2 * (q.x ^ 2 + q.y ^ 2)⟩

/-- Clamp a value into the closed interval from lo to hi. -/
def clamp (lo hi v : ℝ) : ℝ := max lo (min hi v)

/-- Two-argument arctangent: the angle in the half-open interval from minus pi
(exclusive) to pi (inclusive) of the point with abscissa x and ordinate y,
realised as the argument of the complex number x + y i. -/
noncomputable def atan2 (y x : ℝ) : ℝ := Complex.arg ⟨x, y⟩

/-- Converts radians to degrees componentwise; from the source,
radians times 180 divided by pi. -/
noncomputable def RadToDeg (radians : Vector3) : Vector3 :=
  ⟨radians.x * 180 / Real.pi, radians.y * 180 / Real.pi, radians.z * 180 / Real.pi⟩

/-- Converts degrees to radians componentwise; from the source,
degrees times pi divided by 180. -/
noncomputable def DegToRad (degrees : Vector3) : Vector3 :=
  ⟨degrees.x * Real.pi / 180, degrees.y * Real.pi / 180, degrees.z * Real.pi / 180⟩

/-- Modelled from the spec: threshold below which the arcsine argument is treated
as being at the gimbal-lock singularity (the implementation file is not under
src, only its declarations; the spec leaves the exact value open, so a small
fixed constant is chosen). -/
def gimbalLockEpsilon : ℝ := 1e-6

/-- Modelled from the spec: ConvertEulerRadiansToQuaternion builds the quaternion
equivalent to Rx * Ry * Rz by constructing per-axis half-angle quaternions and
composing them in the fixed order Z first, then Y, then X, via quaternion
multiplication. The implementation file is not under src. -/
noncomputable def ConvertEulerRadiansToQuaternion (eulerRadians : Vector3) : Quaternion :=
  quatMul
    (quatMul ⟨Real.sin (eulerRadians.x / 2), 0, 0, Real.cos (eulerRadians.x / 2)⟩
             ⟨0, Real.sin (eulerRadians.y / 2), 0, Real.cos (eulerRadians.y / 2)⟩)
    ⟨0, 0, Real.sin (eulerRadians.z / 2), Real.cos (eulerRadians.z / 2)⟩

/-- Modelled from the spec: degrees variant converts to radians first, then delegates. -/
noncomputable def ConvertEulerDegreesToQuaternion (eulerDegrees : Vector3) : Quaternion :=
  ConvertEulerRadiansToQuaternion (DegToRad eulerDegrees)

/-- Modelled from the spec: closed-form extraction of Z-Y-X Euler angles from the
rotation matrix elements; the middle angle from an arcsine of a matrix element
clamped to the interval from -1 to 1, the outer two angles from two-argument
arctangents of matrix-element pairs; at gimbal lock the x angle is pinned to
zero and the remaining coupled angle is resolved from the residual terms. -/
noncomputable def eulerFromBasis (m : Matrix3x3) : Vector3 :=
  let s := clamp (-1) 1 m.m02
  if 1 - gimbalLockEpsilon < |s| then
    ⟨0, Real.arcsin s, atan2 m.m10 m.m11⟩
  else
    ⟨atan2 (-m.m12) m.m22, Real.arcsin s, atan2 (-m.m01) m.m00⟩

/-- Modelled from the spec: derive the three angles from the rotation matrix
elements implied by the quaternion. The implementation file is not under src. -/
noncomputable def ConvertQuaternionToEulerRadians (q : Quaternion) : Vector3 :=
  eulerFromBasis (quatToMatrix q)

/-- Modelled from the spec: the degrees variant is the radians result scaled
componentwise. -/
noncomputable def ConvertQuaternionToEulerDegrees (q : Quaternion) : Vector3 :=
  RadToDeg (ConvertQuaternionToEulerRadians q)

/-- Modelled from the spec: the precise path computes sine and cosine of each
angle directly and builds the composed rotation matrix Rx * Ry * Rz term by
term, with zero translation. The implementation file is not under src. -/
noncomputable def ConvertEulerRadiansToTransformPrecise (eulerRadians : Vector3) : Transform :=
  let sx := Real.sin eulerRadians.x
  let cx := Real.cos eulerRadians.x
  let sy := Real.sin eulerRadians.y
  let cy := Real.cos eulerRadians.y
  let sz := Real.sin eulerRadians.z
  let cz := Real.cos eulerRadians.z
  { basis := ⟨cy * cz, -(cy * sz), sy,
              cx * sz + sx * sy * cz, cx * cz - sx * sy * sz, -(sx * cy),
              sx * sz - cx * sy * cz, sx * cz + cx * sy * sz, cx * cy⟩,
    translation := ⟨0, 0, 0⟩ }

/-- Modelled from the spec: degrees variant converts to radians first, then delegates. -/
noncomputable def ConvertEulerDegreesToTransformPrecise (eulerDegrees : Vector3) : Transform :=
  ConvertEulerRadiansToTransformPrecise (DegToRad eulerDegrees)

/-- Modelled from the spec: the non-precise path builds the rotation via the
Euler-to-quaternion conversion, then lifts it to a transform with zero
translation. The implementation file is not under src. -/
noncomputable def ConvertEulerDegreesToTransform (eulerDegrees : Vector3) : Transform :=
  { basis := quatToMatrix (ConvertEulerDegreesToQuaternion eulerDegrees),
    translation := ⟨0, 0, 0⟩ }

/-- Modelled from the spec: extract the rotational part of the transform and
delegate to the matrix-element Euler extraction; translation is discarded. -/
noncomputable def ConvertTransformToEulerRadians (t : Transform) : Vector3 :=
  eulerFromBasis t.basis

/-- Modelled from the spec: degrees variant of the transform-to-Euler extraction. -/
noncomputable def ConvertTransformToEulerDegrees (t : Transform) : Vector3 :=
  RadToDeg (ConvertTransformToEulerRadians t)

/-- Modelled from the spec: threshold below which the vector part of a quaternion
is treated as degenerate in the axis-angle extraction. -/
def axisAngleEpsilon : ℝ := 1e-6

/-- Modelled from the spec: the deterministic default axis returned for a
near-identity rotation, chosen as the fixed unit x axis. -/
def defaultAxis : Vector3 := ⟨1, 0, 0⟩

/-- Modelled from the spec: the angle is twice the arccosine of the clamped
scalar component; the axis is the normalized vector part when its norm exceeds
a small epsilon, and the deterministic default axis otherwise. The function
returns the pair of the axis and the angle. The implementation file is not
under src. -/
noncomputable def ConvertQuaternionToAxisAngle (quat : Quaternion) : Vector3 × ℝ :=
  let angle := 2 * Real.arccos (clamp (-1) 1 quat.w)
  let v : Vector3 := ⟨quat.x, quat.y, quat.z⟩
  (if axisAngleEpsilon < vnorm v then vnormalize v else defaultAxis, angle)

/-- Enumeration of the six signed principal local axes, from the source header;
the underlying values follow the declaration order starting at zero. -/
inductive Axis where
  | XPositive
  | XNegative
  | YPositive
  | YNegative
  | ZPositive
  | ZNegative
deriving DecidableEq, Fintype, Repr

/-- Underlying unsigned value of each enumerator, following the C++ rule that an
unscoped initializer-free enumerator list counts up from zero in declaration
order. -/
def axisToU32 : Axis → ℕ
  | Axis.XPositive => 0
  | Axis.XNegative => 1
  | Axis.YPositive => 2
  | Axis.YNegative => 3
  | Axis.ZPositive => 4
  | Axis.ZNegative => 5

/-- Modelled from the spec: threshold below which the look direction is treated
as zero length. -/
def lookAtEpsilon : ℝ := 1e-6

/-- Matrix whose columns are the given local basis vectors for the x, y and z
axes of the constructed frame. -/
def columnsToBasis (bx by_ bz : Vector3) : Matrix3x3 :=
  ⟨bx.x, by_.x, bz.x, bx.y, by_.y, bz.y, bx.z, by_.z, bz.z⟩

/-- Negation of a vector. -/
def vneg (v : Vector3) : Vector3 := ⟨-v.x, -v.y, -v.z⟩

/-- Modelled from the spec: build a transform at the source position whose chosen
local axis points toward the target. If the look direction is below epsilon in
norm, the identity rotation positioned at the source is returned; otherwise the
direction is normalized, a reference up vector is chosen (world z, or world x
when nearly parallel to the direction), an orthonormal right-handed basis is
built via cross products, and the basis is remapped so the requested axis
carries the forward direction while preserving right-handedness. The
implementation file is not under src. -/
noncomputable def CreateLookAt («from» «to» : Vector3) (forwardAxis : Axis) : Transform :=
  let dir := vsub «to» «from»
  if vnorm dir < lookAtEpsilon then
    { basis := identityBasis, translation := «from» }
  else
    let fw := vnormalize dir
    let refUp : Vector3 := if 1 - lookAtEpsilon < |vdot fw ⟨0, 0, 1⟩| then ⟨1, 0, 0⟩ else ⟨0, 0, 1⟩
    let right := vnormalize (vcross fw refUp)
    let up := vcross right fw
    let basis :=
      match forwardAxis with
      | Axis.XPositive => columnsToBasis fw up right
      | Axis.XNegative => columnsToBasis (vneg fw) up (vneg right)
      | Axis.YPositive => columnsToBasis right fw up
      | Axis.YNegative => columnsToBasis (vneg right) (vneg fw) up
      | Axis.ZPositive => columnsToBasis up right fw
      | Axis.ZNegative => columnsToBasis up (vneg right) (vneg fw)
    { basis := basis, translation := «from» }

/-- Look-at builder as called with the forward axis argument omitted: the source
header declares the parameter with default value Axis::YPositive. -/
noncomputable def CreateLookAtDefault («from» «to» : Vector3) : Transform :=
  CreateLookAt «from» «to» Axis.YPositive

/-- Row-by-column product of two three-by-three matrices. -/
def matMul (a b : Matrix3x3) : Matrix3x3 :=
  ⟨a.m00 * b.m00 + a.m01 * b.m10 + a.m02 * b.m20,
   a.m00 * b.m01 + a.m01 * b.m11 + a.m02 * b.m21,
   a.m00 * b.m02 + a.m01 * b.m12 + a.m02 * b.m22,
   a.m10 * b.m00 + a.m11 * b.m10 + a.m12 * b.m20,
   a.m10 * b.m01 + a.m11 * b.m11 + a.m12 * b.m21,
   a.m10 * b.m02 + a.m11 * b.m12 + a.m12 * b.m22,
   a.m20 * b.m00 + a.m21 * b.m10 + a.m22 * b.m20,
   a.m20 * b.m01 + a.m21 * b.m11 + a.m22 * b.m21,
   a.m20 * b.m02 + a.m21 * b.m12 + a.m22 * b.m22⟩

/-- Principal rotation matrix about the x axis. -/
noncomputable def rotXMat (a : ℝ) : Matrix3x3 :=
  ⟨1, 0, 0, 0, Real.cos a, -Real.sin a, 0, Real.sin a, Real.cos a⟩

/-- Principal rotation matrix about the y axis. -/
noncomputable def rotYMat (a : ℝ) : Matrix3x3 :=
  ⟨Real.cos a, 0, Real.sin a, 0, 1, 0, -Real.sin a, 0, Real.cos a⟩

/-- Principal rotation matrix about the z axis. -/
noncomputable def rotZMat (a : ℝ) : Matrix3x3 :=
  ⟨Real.cos a, -Real.sin a, 0, Real.sin a, Real.cos a, 0, 0, 0, 1⟩

/-- Composing the two scale factors of the angle-unit conversions cancels exactly
over the reals. -/
lemma degToRad_radToDeg (v : Vector3) : DegToRad (RadToDeg v) = v := by
  have hpi : Real.pi ≠ 0 := Real.pi_ne_zero
  refine Vector3.ext ?_ ?_ ?_ <;>
    · simp only [DegToRad, RadToDeg]
      field_simp

/-- The squared norm of the quaternion built from an Euler triple is exactly one. -/
lemma quatNormSq_eulerToQuat (e : Vector3) : quatNormSq (ConvertEulerRadiansToQuaternion e) = 1 := by
  have ha := Real.sin_sq_add_cos_sq (e.x / 2)
  have hb := Real.sin_sq_add_cos_sq (e.y / 2)
  have hc := Real.sin_sq_add_cos_sq (e.z / 2)
  simp only [quatNormSq, ConvertEulerRadiansToQuaternion, quatMul]
  linear_combination
    ((Real.sin (e.y / 2) ^ 2 + Real.cos (e.y / 2) ^ 2) *
      (Real.sin (e.z / 2) ^ 2 + Real.cos (e.z / 2) ^ 2)) * ha +
    (Real.sin (e.z / 2) ^ 2 + Real.cos (e.z / 2) ^ 2) * hb + hc

/-- C5: For every Vector3 v, DegToRad applied to RadToDeg of v is exactly equal
to v; over the real-number semantics of the source expressions the two inverse
scale factors cancel with no error at all. -/
theorem radToDeg_degToRad_roundtrip_exact (v : Vector3) : DegToRad (RadToDeg v) = v :=
  degToRad_radToDeg v

/-- C5 witness: the round trip is the identity on a concrete vector. -/
theorem radToDeg_degToRad_roundtrip_exact_witness :
    DegToRad (RadToDeg ⟨1, -2, 3⟩) = (⟨1, -2, 3⟩ : Vector3) :=
  radToDeg_degToRad_roundtrip_exact ⟨1, -2, 3⟩

/-- C8: Every quaternion produced by ConvertEulerRadiansToQuaternion and
ConvertEulerDegreesToQuaternion has unit norm: its squared norm is exactly one
in the real-number semantics. -/
theorem eulerToQuat_unit_norm (e : Vector3) :
    quatNormSq (ConvertEulerRadiansToQuaternion e) = 1 ∧
    quatNormSq (ConvertEulerDegreesToQuaternion e) = 1 :=
  ⟨quatNormSq_eulerToQuat e, quatNormSq_eulerToQuat (DegToRad e)⟩

/-- C9: The transform-to-Euler conversions depend only on the rotational part:
two transforms with the same basis yield the same Euler triple in both the
radians and the degrees variant. -/
theorem transformToEuler_ignores_translation (t1 t2 : Transform) (h : t1.basis = t2.basis) :
    ConvertTransformToEulerRadians t1 = ConvertTransformToEulerRadians t2 ∧
    ConvertTransformToEulerDegrees t1 = ConvertTransformToEulerDegrees t2 := by
  constructor
  · simp only [ConvertTransformToEulerRadians, h]
  · simp only [ConvertTransformToEulerDegrees, ConvertTransformToEulerRadians, h]

/-- C9 witness: two concrete transforms sharing the identity basis but with
different translations produce identical Euler triples. -/
theorem transformToEuler_ignores_translation_witness :
    ConvertTransformToEulerRadians ⟨identityBasis, ⟨0, 0, 0⟩⟩ =
      ConvertTransformToEulerRadians ⟨identityBasis, ⟨1, 2, 3⟩⟩ ∧
    ConvertTransformToEulerDegrees ⟨identityBasis, ⟨0, 0, 0⟩⟩ =
      ConvertTransformToEulerDegrees ⟨identityBasis, ⟨1, 2, 3⟩⟩ :=
  transformToEuler_ignores_translation ⟨identityBasis, ⟨0, 0, 0⟩⟩ ⟨identityBasis, ⟨1, 2, 3⟩⟩ rfl

/-- C10: The Axis enumeration has exactly six values, their underlying values
are 0 through 5 in the declared order XPositive, XNegative, YPositive,
YNegative, ZPositive, ZNegative, the mapping is injective, and calling
CreateLookAt with the forward axis omitted uses Axis.YPositive. -/
theorem axis_enum_and_lookAt_default :
    Fintype.card Axis = 6 ∧
    axisToU32 Axis.XPositive = 0 ∧ axisToU32 Axis.XNegative = 1 ∧
    axisToU32 Axis.YPositive = 2 ∧ axisToU32 Axis.YNegative = 3 ∧
    axisToU32 Axis.ZPositive = 4 ∧ axisToU32 Axis.ZNegative = 5 ∧
    Function.Injective axisToU32 ∧
    ∀ f t : Vector3, CreateLookAtDefault f t = CreateLookAt f t Axis.YPositive :=
  ⟨by decide, rfl, rfl, rfl, rfl, rfl, rfl, by decide, fun f t => rfl⟩

/-- The rotation matrix implied by the quaternion built from an Euler triple
coincides entrywise with the matrix the precise path builds term by term. -/
lemma quatToMatrix_eulerToQuat (e : Vector3) :
    quatToMatrix (ConvertEulerRadiansToQuaternion e) =
      (ConvertEulerRadiansToTransformPrecise e).basis := by
  obtain ⟨x, y, z⟩ := e
  have ha := Real.sin_sq_add_cos_sq (x / 2)
  have hb := Real.sin_sq_add_cos_sq (y / 2)
  have hc := Real.sin_sq_add_cos_sq (z / 2)
  have hx2 : (2 : ℝ) * (x / 2) = x := by ring
  have hy2 : (2 : ℝ) * (y / 2) = y := by ring
  have hz2 : (2 : ℝ) * (z / 2) = z := by ring
  have hsx := Real.sin_two_mul (x / 2); rw [hx2] at hsx
  have hsy := Real.sin_two_mul (y / 2); rw [hy2] at hsy
  have hsz := Real.sin_two_mul (z / 2); rw [hz2] at hsz
  have hcx := Real.cos_two_mul (x / 2); rw [hx2] at hcx
  have hcy := Real.cos_two_mul (y / 2); rw [hy2] at hcy
  have hcz := Real.cos_two_mul (z / 2); rw [hz2] at hcz
  have hcx' : Real.cos x = Real.cos (x / 2) ^ 2 - Real.sin (x / 2) ^ 2 := by
    rw [hcx]; linarith
  have hcy' : Real.cos y = Real.cos (y / 2) ^ 2 - Real.sin (y / 2) ^ 2 := by
    rw [hcy]; linarith
  have hcz' : Real.cos z = Real.cos (z / 2) ^ 2 - Real.sin (z / 2) ^ 2 := by
    rw [hcz]; linarith
  simp only [quatToMatrix, ConvertEulerRadiansToQuaternion, quatMul,
    ConvertEulerRadiansToTransformPrecise, Matrix3x3.mk.injEq]
  rw [hsx, hsy, hsz, hcx', hcy', hcz']
  refine ⟨?_, ?_, ?_, ?_, ?_, ?_, ?_, ?_, ?_⟩
  · linear_combination
      (-2 * (Real.sin (y / 2) ^ 2 * Real.cos (z / 2) ^ 2 +
        Real.cos (y / 2) ^ 2 * Real.sin (z / 2) ^ 2)) * ha +
      (-(Real.sin (z / 2) ^ 2 + Real.cos (z / 2) ^ 2)) * hb + (-1 : ℝ) * hc
  · linear_combination
      (2 * Real.sin (z / 2) * Real.cos (z / 2) *
        (Real.sin (y / 2) ^ 2 - Real.cos (y / 2) ^ 2)) * ha
  · linear_combination
      (2 * Real.sin (y / 2) * Real.cos (y / 2) *
        (Real.sin (z / 2) ^ 2 + Real.cos (z / 2) ^ 2)) * ha +
      (2 * Real.sin (y / 2) * Real.cos (y / 2)) * hc
  · linear_combination
      (2 * Real.sin (z / 2) * Real.cos (z / 2) *
        (Real.cos (x / 2) ^ 2 - Real.sin (x / 2) ^ 2)) * hb
  · linear_combination
      (-(Real.sin (z / 2) ^ 2 + Real.cos (z / 2) ^ 2)) * ha +
      (-2 * (Real.sin (x / 2) ^ 2 * Real.cos (z / 2) ^ 2 +
        Real.cos (x / 2) ^ 2 * Real.sin (z / 2) ^ 2)) * hb + (-1 : ℝ) * hc
  · linear_combination
      (2 * Real.sin (x / 2) * Real.cos (x / 2) *
        (Real.sin (y / 2) ^ 2 - Real.cos (y / 2) ^ 2)) * hc
  · linear_combination
      (4 * Real.sin (x / 2) * Real.cos (x / 2) *
        Real.sin (z / 2) * Real.cos (z / 2)) * hb
  · linear_combination
      (2 * Real.sin (x / 2) * Real.cos (x / 2) *
        (Real.cos (z / 2) ^ 2 - Real.sin (z / 2) ^ 2)) * hb
  · linear_combination
      (-1 : ℝ) * ha + (-(Real.sin (x / 2) ^ 2 + Real.cos (x / 2) ^ 2)) * hb +
      (-2 * (Real.sin (x / 2) ^ 2 * Real.cos (y / 2) ^ 2 +
        Real.cos (x / 2) ^ 2 * Real.sin (y / 2) ^ 2)) * hc

/-- The precise-path matrix is exactly the algebraic expansion of the product
of the three principal rotation matrices about x, y and z. -/
lemma preciseBasis_eq_rotXYZ (e : Vector3) :
    matMul (rotXMat e.x) (matMul (rotYMat e.y) (rotZMat e.z)) =
      (ConvertEulerRadiansToTransformPrecise e).basis := by
  simp only [matMul, rotXMat, rotYMat, rotZMat, ConvertEulerRadiansToTransformPrecise,
    Matrix3x3.mk.injEq]
  refine ⟨?_, ?_, ?_, ?_, ?_, ?_, ?_, ?_, ?_⟩ <;> ring

/-- Concrete evaluation: the quaternion of the Euler triple of 90 degrees about
x and zero about y and z is the half-turn-free rotation with both the x and
the scalar component equal to half the square root of two. -/
lemma eulerDeg90_quat :
    ConvertEulerDegreesToQuaternion ⟨90, 0, 0⟩ =
      ⟨Real.sqrt 2 / 2, 0, 0, Real.sqrt 2 / 2⟩ := by
  have hdeg : DegToRad ⟨90, 0, 0⟩ = ⟨Real.pi / 2, 0, 0⟩ := by
    refine Vector3.ext ?_ ?_ ?_ <;> (simp [DegToRad]; try ring)
  simp only [ConvertEulerDegreesToQuaternion, hdeg, ConvertEulerRadiansToQuaternion, quatMul]
  rw [show Real.pi / 2 / 2 = Real.pi / 4 by ring]
  norm_num [Real.sin_pi_div_four, Real.cos_pi_div_four]

/-- C2: For every Euler triple the precise path and the quaternion-based path
produce transforms with exactly equal rotational parts in the real-number
semantics, both for the degrees entry point and for the radians entry point
compared at the corresponding degrees input. -/
theorem precise_and_quaternion_paths_agree (e : Vector3) :
    (ConvertEulerDegreesToTransformPrecise e).basis = (ConvertEulerDegreesToTransform e).basis ∧
    (ConvertEulerRadiansToTransformPrecise e).basis =
      (ConvertEulerDegreesToTransform (RadToDeg e)).basis := by
  constructor
  · simp only [ConvertEulerDegreesToTransformPrecise, ConvertEulerDegreesToTransform,
      ConvertEulerDegreesToQuaternion]
    exact (quatToMatrix_eulerToQuat (DegToRad e)).symm
  · simp only [ConvertEulerDegreesToTransform, ConvertEulerDegreesToQuaternion,
      degToRad_radToDeg]
    exact (quatToMatrix_eulerToQuat e).symm

/-- C7: The quaternion built from an Euler triple realises exactly the composed
rotation Rx times Ry times Rz, and on the concrete input of 90 degrees about x
the resulting quaternion is approximately 0.7071, 0, 0, 0.7071. -/
theorem eulerToQuat_composed_rotation :
    (∀ e : Vector3, quatToMatrix (ConvertEulerRadiansToQuaternion e) =
      matMul (rotXMat e.x) (matMul (rotYMat e.y) (rotZMat e.z))) ∧
    (ConvertEulerDegreesToQuaternion ⟨90, 0, 0⟩).y = 0 ∧
    (ConvertEulerDegreesToQuaternion ⟨90, 0, 0⟩).z = 0 ∧
    |(ConvertEulerDegreesToQuaternion ⟨90, 0, 0⟩).x - 0.7071| ≤ 1e-4 ∧
    |(ConvertEulerDegreesToQuaternion ⟨90, 0, 0⟩).w - 0.7071| ≤ 1e-4 := by
  have h0 : 0 ≤ Real.sqrt 2 := Real.sqrt_nonneg 2
  have h2 : Real.sqrt 2 ^ 2 = 2 := Real.sq_sqrt (by norm_num)
  have hx : |Real.sqrt 2 / 2 - 0.7071| ≤ 1e-4 := by
    rw [abs_le]
    constructor <;> nlinarith [h0, h2]
  refine ⟨fun e => (quatToMatrix_eulerToQuat e).trans (preciseBasis_eq_rotXYZ e).symm,
    ?_, ?_, ?_, ?_⟩
  · rw [eulerDeg90_quat]
  · rw [eulerDeg90_quat]
  · rw [eulerDeg90_quat]; exact hx
  · rw [eulerDeg90_quat]; exact hx

/-- The clamped value always lies in the closed interval from -1 to 1. -/
lemma clamp_mem_Icc (v : ℝ) : clamp (-1) 1 v ∈ Set.Icc (-1 : ℝ) 1 :=
  ⟨le_max_left _ _, max_le (by norm_num) (min_le_left _ _)⟩

/-- The two-argument arctangent always returns a value of magnitude at most pi. -/
lemma abs_atan2_le_pi (y x : ℝ) : |atan2 y x| ≤ Real.pi :=
  Complex.abs_arg_le_pi _

/-- Each component of the matrix-element Euler extraction is bounded: the outer
angles by pi in magnitude and the middle angle by half pi. -/
lemma eulerFromBasis_bounds (m : Matrix3x3) :
    |(eulerFromBasis m).x| ≤ Real.pi ∧ |(eulerFromBasis m).y| ≤ Real.pi / 2 ∧
    |(eulerFromBasis m).z| ≤ Real.pi := by
  have harcsin : ∀ v : ℝ, |Real.arcsin v| ≤ Real.pi / 2 := fun v =>
    abs_le.mpr ⟨Real.neg_pi_div_two_le_arcsin v, Real.arcsin_le_pi_div_two v⟩
  simp only [eulerFromBasis]
  split_ifs with h
  · exact ⟨by simpa using Real.pi_pos.le, harcsin _, abs_atan2_le_pi _ _⟩
  · exact ⟨abs_atan2_le_pi _ _, harcsin _, abs_atan2_le_pi _ _⟩

/-- Scaling a bounded quantity by the radians-to-degrees factor scales its bound. -/
lemma abs_radToDeg_scale (t b : ℝ) (h : |t| ≤ b) :
    |t * 180 / Real.pi| ≤ b * 180 / Real.pi := by
  rw [abs_div, abs_of_pos Real.pi_pos, abs_mul]
  rw [show |(180 : ℝ)| = 180 by norm_num]
  have hm : |t| * 180 ≤ b * 180 := mul_le_mul_of_nonneg_right h (by norm_num)
  exact (div_le_div_iff_of_pos_right Real.pi_pos).mpr hm

/-- C6: For every input quaternion, valid or not, the arcsine argument used by
the Euler extraction is clamped into the closed interval from -1 to 1, and all
components returned by ConvertQuaternionToEulerRadians and
ConvertQuaternionToEulerDegrees are bounded real values: outer angles by pi
radians and 180 degrees, the middle angle by half pi radians and 90 degrees. -/
theorem quatToEuler_components_bounded (q : Quaternion) :
    clamp (-1) 1 (quatToMatrix q).m02 ∈ Set.Icc (-1 : ℝ) 1 ∧
    |(ConvertQuaternionToEulerRadians q).x| ≤ Real.pi ∧
    |(ConvertQuaternionToEulerRadians q).y| ≤ Real.pi / 2 ∧
    |(ConvertQuaternionToEulerRadians q).z| ≤ Real.pi ∧
    |(ConvertQuaternionToEulerDegrees q).x| ≤ 180 ∧
    |(ConvertQuaternionToEulerDegrees q).y| ≤ 90 ∧
    |(ConvertQuaternionToEulerDegrees q).z| ≤ 180 := by
  obtain ⟨h1, h2, h3⟩ := eulerFromBasis_bounds (quatToMatrix q)
  have hx : |(ConvertQuaternionToEulerRadians q).x| ≤ Real.pi := h1
  have hy : |(ConvertQuaternionToEulerRadians q).y| ≤ Real.pi / 2 := h2
  have hz : |(ConvertQuaternionToEulerRadians q).z| ≤ Real.pi := h3
  have h180 : Real.pi * 180 / Real.pi = 180 := by
    field_simp
  have h90 : Real.pi / 2 * 180 / Real.pi = 90 := by
    field_simp; ring
  refine ⟨clamp_mem_Icc _, hx, hy, hz, ?_, ?_, ?_⟩
  · have hb := abs_radToDeg_scale _ _ hx
    rw [h180] at hb
    simpa [ConvertQuaternionToEulerDegrees, RadToDeg] using hb
  · have hb := abs_radToDeg_scale _ _ hy
    rw [h90] at hb
    simpa [ConvertQuaternionToEulerDegrees, RadToDeg] using hb
  · have hb := abs_radToDeg_scale _ _ hz
    rw [h180] at hb
    simpa [ConvertQuaternionToEulerDegrees, RadToDeg] using hb

/-- C4 counterexample: the quaternion with zero vector part and scalar part -1
is a unit quaternion whose vector part has norm zero, below the degeneracy
epsilon, yet the extracted angle is two pi, which is not approximately zero. -/
theorem axisAngle_small_vector_large_angle :
    quatNormSq ⟨0, 0, 0, -1⟩ = 1 ∧
    vnorm ⟨(0 : ℝ), 0, 0⟩ < axisAngleEpsilon ∧
    (ConvertQuaternionToAxisAngle ⟨0, 0, 0, -1⟩).2 = 2 * Real.pi ∧
    ¬ |(ConvertQuaternionToAxisAngle ⟨0, 0, 0, -1⟩).2| ≤ 1e-4 := by
  have hangle : (ConvertQuaternionToAxisAngle ⟨0, 0, 0, -1⟩).2 = 2 * Real.pi := by
    simp only [ConvertQuaternionToAxisAngle]
    rw [show clamp (-1) 1 (Quaternion.mk 0 0 0 (-1)).w = -1 by
      simp [clamp]]
    rw [Real.arccos_neg_one]
  refine ⟨by simp [quatNormSq], ?_, hangle, ?_⟩
  · simp only [vnorm, axisAngleEpsilon]
    norm_num
  · rw [hangle]
    have hpi := Real.pi_gt_three
    rw [abs_of_pos (by linarith)]
    push_neg
    linarith

/-- C4 amended: whenever the vector part of the quaternion has norm at most the
degeneracy epsilon the extraction writes the single deterministic default axis,
the angle is always a bounded real value between zero and two pi, and on the
identity quaternion, whose scalar part is one, the angle is exactly zero. -/
theorem axisAngle_degenerate_deterministic (q : Quaternion)
    (h : vnorm ⟨q.x, q.y, q.z⟩ ≤ axisAngleEpsilon) :
    (ConvertQuaternionToAxisAngle q).1 = defaultAxis ∧
    0 ≤ (ConvertQuaternionToAxisAngle q).2 ∧
    (ConvertQuaternionToAxisAngle q).2 ≤ 2 * Real.pi ∧
    (q.w = 1 → (ConvertQuaternionToAxisAngle q).2 = 0) := by
  refine ⟨?_, ?_, ?_, ?_⟩
  · simp only [ConvertQuaternionToAxisAngle]
    rw [if_neg (not_lt.mpr h)]
  · simp only [ConvertQuaternionToAxisAngle]
    exact mul_nonneg (by norm_num) (Real.arccos_nonneg _)
  · simp only [ConvertQuaternionToAxisAngle]
    have := Real.arccos_le_pi (clamp (-1) 1 q.w)
    linarith
  · intro hw
    simp only [ConvertQuaternionToAxisAngle, hw]
    rw [show clamp (-1) 1 (1 : ℝ) = 1 by simp [clamp], Real.arccos_one]
    ring

/-- C4 witness: the identity quaternion yields the default axis and angle zero. -/
theorem axisAngle_degenerate_deterministic_witness :
    (ConvertQuaternionToAxisAngle ⟨0, 0, 0, 1⟩).1 = defaultAxis ∧
    (ConvertQuaternionToAxisAngle ⟨0, 0, 0, 1⟩).2 = 0 := by
  have h := axisAngle_degenerate_deterministic ⟨0, 0, 0, 1⟩
    (by simp only [vnorm, axisAngleEpsilon]; norm_num)
  exact ⟨h.1, h.2.2.2 rfl⟩

/-- The two-argument arctangent recovers an angle from its sine and cosine on
the principal range. -/
lemma atan2_sin_cos (θ : ℝ) (h1 : -Real.pi < θ) (h2 : θ ≤ Real.pi) :
    atan2 (Real.sin θ) (Real.cos θ) = θ := by
  simp only [atan2]
  rw [Complex.mk_eq_add_mul_I, Complex.ofReal_cos, Complex.ofReal_sin]
  exact Complex.arg_cos_add_sin_mul_I ⟨h1, h2⟩

/-- The two-argument arctangent is invariant under scaling both arguments by a
positive factor. -/
lemma atan2_pos_mul (k y x : ℝ) (hk : 0 < k) : atan2 (k * y) (k * x) = atan2 y x := by
  simp only [atan2]
  have hmul : (⟨k * x, k * y⟩ : ℂ) = (k : ℂ) * ⟨x, y⟩ := by
    apply Complex.ext <;> simp [Complex.mul_re, Complex.mul_im]
  rw [hmul, Complex.arg_real_mul _ hk]

/-- The Euler extraction of the identity rotation matrix is the zero triple. -/
lemma eulerFromBasis_identity : eulerFromBasis identityBasis = ⟨0, 0, 0⟩ := by
  have hatan : atan2 (-0 : ℝ) 1 = 0 := by
    simp only [atan2, neg_zero]
    rw [show (⟨1, 0⟩ : ℂ) = 1 by apply Complex.ext <;> simp, Complex.arg_one]
  have hc : clamp (-1) 1 (0 : ℝ) = 0 := by simp [clamp]
  simp only [eulerFromBasis, identityBasis]
  rw [hc]
  rw [if_neg (by rw [abs_zero]; norm_num [gimbalLockEpsilon])]
  refine Vector3.ext ?_ ?_ ?_
  · exact hatan
  · exact Real.arcsin_zero
  · exact hatan

/-- The quaternion of a full turn about x collapses to the negated identity
quaternion. -/
lemma eulerToQuat_two_pi :
    ConvertEulerRadiansToQuaternion ⟨2 * Real.pi, 0, 0⟩ = ⟨0, 0, 0, -1⟩ := by
  simp only [ConvertEulerRadiansToQuaternion, quatMul]
  refine Quaternion.ext ?_ ?_ ?_ ?_ <;>
    · dsimp only
      rw [show (2 : ℝ) * Real.pi / 2 = Real.pi by ring]
      norm_num [Real.sin_pi, Real.cos_pi]

/-- C1 counterexample: the Euler triple with x equal to two pi has middle angle
zero, far outside any gimbal-lock neighborhood, yet the quaternion round trip
returns the zero triple, whose x component differs from two pi by far more
than the 1e-4 tolerance. -/
theorem euler_quaternion_roundtrip_fails_outside_principal_range :
    ConvertQuaternionToEulerRadians (ConvertEulerRadiansToQuaternion ⟨2 * Real.pi, 0, 0⟩) =
      ⟨0, 0, 0⟩ ∧
    ¬ |(ConvertQuaternionToEulerRadians
        (ConvertEulerRadiansToQuaternion ⟨2 * Real.pi, 0, 0⟩)).x - 2 * Real.pi| ≤ 1e-4 ∧
    1 ≤ |(0 : ℝ) - Real.pi / 2| ∧ 1 ≤ |(0 : ℝ) + Real.pi / 2| := by
  have hmat : quatToMatrix ⟨0, 0, 0, -1⟩ = identityBasis := by
    simp only [quatToMatrix, identityBasis]
    norm_num
  have hrt : ConvertQuaternionToEulerRadians
      (ConvertEulerRadiansToQuaternion ⟨2 * Real.pi, 0, 0⟩) = ⟨0, 0, 0⟩ := by
    rw [eulerToQuat_two_pi]
    simp only [ConvertQuaternionToEulerRadians]
    rw [hmat, eulerFromBasis_identity]
  have hpi := Real.pi_gt_three
  refine ⟨hrt, ?_, ?_, ?_⟩
  · rw [hrt]
    push_neg
    rw [show (Vector3.mk 0 0 0).x - 2 * Real.pi = -(2 * Real.pi) by simp, abs_neg,
      abs_of_pos (by linarith)]
    linarith
  · rw [zero_sub, abs_neg, abs_of_pos (by linarith)]
    linarith
  · rw [zero_add, abs_of_pos (by linarith)]
    linarith

/-- C1 amended: for every Euler triple whose outer angles lie in the principal
range, from minus pi exclusive to pi inclusive, and whose middle angle has
magnitude at most half pi with its sine bounded away from the gimbal-lock
singularity by the lock epsilon, extracting Euler angles from the quaternion
of the triple returns the triple exactly, hence in particular within 1e-4
componentwise. -/
theorem euler_quaternion_roundtrip (e : Vector3)
    (hx1 : -Real.pi < e.x) (hx2 : e.x ≤ Real.pi)
    (hz1 : -Real.pi < e.z) (hz2 : e.z ≤ Real.pi)
    (hy : |e.y| ≤ Real.pi / 2)
    (hlock : |Real.sin e.y| ≤ 1 - gimbalLockEpsilon) :
    ConvertQuaternionToEulerRadians (ConvertEulerRadiansToQuaternion e) = e := by
  obtain ⟨x, y, z⟩ := e
  simp only at hx1 hx2 hz1 hz2 hy hlock
  simp only [ConvertQuaternionToEulerRadians]
  rw [quatToMatrix_eulerToQuat]
  simp only [ConvertEulerRadiansToTransformPrecise]
  have hy' := abs_le.mp hy
  have hylt : y < Real.pi / 2 := by
    rcases lt_or_eq_of_le hy'.2 with h | h
    · exact h
    · rw [h] at hlock
      rw [Real.sin_pi_div_two] at hlock
      norm_num [gimbalLockEpsilon] at hlock
  have hygt : -(Real.pi / 2) < y := by
    rcases lt_or_eq_of_le hy'.1 with h | h
    · exact h
    · rw [← h] at hlock
      rw [show Real.sin (-(Real.pi / 2)) = -1 by
        rw [Real.sin_neg, Real.sin_pi_div_two]] at hlock
      norm_num [gimbalLockEpsilon] at hlock
  have hcy : 0 < Real.cos y := Real.cos_pos_of_mem_Ioo ⟨hygt, hylt⟩
  have hclamp : clamp (-1) 1 (Real.sin y) = Real.sin y := by
    simp only [clamp]
    rw [min_eq_right (Real.sin_le_one y), max_eq_right (Real.neg_one_le_sin y)]
  simp only [eulerFromBasis]
  rw [hclamp, if_neg (not_lt.mpr hlock)]
  refine Vector3.ext ?_ ?_ ?_
  · show atan2 (- -(Real.sin x * Real.cos y)) (Real.cos x * Real.cos y) = x
    rw [neg_neg, show Real.sin x * Real.cos y = Real.cos y * Real.sin x by ring,
      show Real.cos x * Real.cos y = Real.cos y * Real.cos x by ring,
      atan2_pos_mul _ _ _ hcy]
    exact atan2_sin_cos x hx1 hx2
  · exact Real.arcsin_sin hy'.1 hy'.2
  · show atan2 (- -(Real.cos y * Real.sin z)) (Real.cos y * Real.cos z) = z
    rw [neg_neg, atan2_pos_mul _ _ _ hcy]
    exact atan2_sin_cos z hz1 hz2

/-- C1 witness: the zero triple satisfies every hypothesis and round trips
exactly. -/
theorem euler_quaternion_roundtrip_witness :
    ConvertQuaternionToEulerRadians (ConvertEulerRadiansToQuaternion ⟨0, 0, 0⟩) =
      (⟨0, 0, 0⟩ : Vector3) :=
  euler_quaternion_roundtrip ⟨0, 0, 0⟩
    (by simpa using Real.pi_pos)
    (by simpa using Real.pi_pos.le)
    (by simpa using Real.pi_pos)
    (by simpa using Real.pi_pos.le)
    (by show |(0 : ℝ)| ≤ Real.pi / 2; rw [abs_zero]; positivity)
    (by show |Real.sin 0| ≤ 1 - gimbalLockEpsilon
        rw [Real.sin_zero, abs_zero]
        norm_num [gimbalLockEpsilon])

/-- C3: CreateLookAt with coinciding source and target positions returns the
identity rotation positioned at the source, for every position and every axis. -/
theorem createLookAt_degenerate_identity (p : Vector3) (axis : Axis) :
    CreateLookAt p p axis = { basis := identityBasis, translation := p } := by
  have hdir : vsub p p = ⟨0, 0, 0⟩ := by simp [vsub]
  have hcond : vnorm (vsub p p) < lookAtEpsilon := by
    rw [hdir]
    simp only [vnorm, lookAtEpsilon]
    norm_num
  simp only [CreateLookAt]
  rw [if_pos hcond]

end AzFramework
